import Mathlib

/-!
Shallow embedding of the `trading-bot-ai` repository (files `analysis.py`,
`simple_strategy.py`, `strategies.py`, `simulator.py`, `strategy.py`) and
proofs about it.  Prices, balances and thresholds are modelled as rationals;
pandas NaN entries of an indicator series are modelled as `none`; Python
dictionaries keyed by strings are modelled as association lists; a Python
exception escaping a function is modelled as `Except.error`.
-/

namespace TradingBot

/-- The three trading actions a strategy classifier can return
("BUY", "SELL", "HOLD"). -/
inductive Action where
  | buy
  | sell
  | hold
deriving DecidableEq, Inhabited

/-- Python `thresholds.get(key, fallback)` on a string-keyed dictionary of
rationals. -/
def dictGet (d : List (String × ℚ)) (key : String) (fallback : ℚ) : ℚ :=
  (d.lookup key).getD fallback

/-- Key "buy" of a threshold dictionary. -/
def kBuy : String := "buy"

/-- Key "sell" of a threshold dictionary. -/
def kSell : String := "sell"

/-- Key "window_size" of a strategy-parameter dictionary. -/
def kWindow : String := "window_size"

/-- Strategy name "simple". -/
def kSimple : String := "simple"

/-- The function `simple_strategy` from `simple_strategy.py` (an identical
copy sits at the bottom of `strategy.py`): BUY when the price is below the
moving average scaled by `1 - buy_threshold`, SELL when above the moving
average scaled by `1 + sell_threshold`, otherwise HOLD.  Missing threshold
keys default to 0.02 and 0.03 via `dict.get`. -/
def simple_strategy (current_price moving_avg : ℚ)
    (thresholds : List (String × ℚ)) : Action :=
  let buy_threshold := dictGet thresholds kBuy (2/100)
  let sell_threshold := dictGet thresholds kSell (3/100)
  if current_price < moving_avg * (1 - buy_threshold) then .buy
  else if current_price > moving_avg * (1 + sell_threshold) then .sell
  else .hold

/-- The trailing window of `window` prices ending at (and including) index
`i`: what pandas `rolling(window)` aggregates at row `i`. -/
def trailingWindow (prices : List ℚ) (window : ℕ) (i : ℕ) : List ℚ :=
  (prices.take (i + 1)).drop (i + 1 - window)

/-- The function `calculate_sma` from `analysis.py`: pandas
`Close.rolling(window).mean()`.  Entry `i` is the arithmetic mean of the
`window` trailing prices ending at `i`, and is NaN (`none`) while fewer than
`window` prices are available (pandas `min_periods` defaults to the window
length). -/
def calculate_sma (prices : List ℚ) (window : ℕ) : List (Option ℚ) :=
  (List.range prices.length).map fun i =>
    if window ≤ i + 1 then some ((trailingWindow prices window i).sum / window)
    else none

/-- Helper for `gains`: pointwise positive parts of consecutive differences,
given the previous price. -/
def gainsAux (prev : ℚ) : List ℚ → List ℚ
  | [] => []
  | p :: rest => (if p - prev > 0 then p - prev else 0) :: gainsAux p rest

/-- The series `gain = delta.where(delta > 0, 0)` from `calculate_rsi`, where
`delta = Close.diff()`.  The NaN that `diff` leaves at index 0 fails the
`delta > 0` test, so row 0 is 0. -/
def gains : List ℚ → List ℚ
  | [] => []
  | p :: rest => 0 :: gainsAux p rest

/-- Helper for `losses`: pointwise negated negative parts of consecutive
differences, given the previous price. -/
def lossesAux (prev : ℚ) : List ℚ → List ℚ
  | [] => []
  | p :: rest => (if p - prev < 0 then -(p - prev) else 0) :: lossesAux p rest

/-- The series `loss = -delta.where(delta < 0, 0)` from `calculate_rsi`.  The
NaN that `diff` leaves at index 0 fails the `delta < 0` test, so row 0 is 0. -/
def losses : List ℚ → List ℚ
  | [] => []
  | p :: rest => 0 :: lossesAux p rest

/-- Helper for `ewma`: the recurrence `y = (1 - a) * prev + a * x` applied
along the list. -/
def ewmaFrom (a : ℚ) (prev : ℚ) : List ℚ → List ℚ
  | [] => []
  | x :: rest =>
    let y := (1 - a) * prev + a * x
    y :: ewmaFrom a y rest

/-- pandas `ewm(com = window - 1, adjust=False).mean()`: the exponentially
weighted moving average with smoothing factor `a = 1 / (1 + com) = 1/window`,
seeded with the first element. -/
def ewma (window : ℕ) : List ℚ → List ℚ
  | [] => []
  | x :: rest => x :: ewmaFrom (1 / (window : ℚ)) x rest

/-- The RSI value produced from the smoothed gain and loss at one row of
`calculate_rsi`: `rs = avg_gain / avg_loss; rsi = 100 - 100 / (1 + rs)`.
When `avg_loss` is zero, pandas yields `inf` or NaN for `rs` and the
subsequent `rsi.fillna(100)` (and `100 - 100/inf = 100`) force the value
100. -/
def rsiValue (avg_gain avg_loss : ℚ) : ℚ :=
  if avg_loss = 0 then 100
  else 100 - 100 / (1 + avg_gain / avg_loss)

/-- The function `calculate_rsi` from `analysis.py`: gains and losses of the
price differences are smoothed by `ewma`, combined by `rsiValue`, and the
first `window` rows are forced to NaN (`rsi.iloc[:window] = pd.NA`)
regardless of any numeric value the smoothing produced there. -/
def calculate_rsi (prices : List ℚ) (window : ℕ) : List (Option ℚ) :=
  let avg_gain := ewma window (gains prices)
  let avg_loss := ewma window (losses prices)
  (List.range prices.length).map fun i =>
    if i < window then none
    else some (rsiValue (avg_gain.getD i 0) (avg_loss.getD i 0))

/-- The function `generate_signals` from `strategies.py`: signal 1 (buy)
where the close is above the SMA and the RSI is below the oversold threshold,
-1 (sell) where the close is below the SMA and the RSI is above the
overbought threshold, both restricted by `notna()` to rows where the two
indicators are defined; 0 (hold) everywhere else, including the early-return
path that leaves the freshly initialised zero column untouched. -/
def generate_signals (close : List ℚ) (sma_window rsi_window : ℕ)
    (rsi_oversold rsi_overbought : ℚ) : List ℤ :=
  let sma := calculate_sma close sma_window
  let rsi := calculate_rsi close rsi_window
  (List.range close.length).map fun i =>
    match sma.getD i none, rsi.getD i none with
    | some s, some r =>
      let c := close.getD i 0
      if c > s ∧ r < rsi_oversold then 1
      else if c < s ∧ r > rsi_overbought then -1
      else 0
    | _, _ => 0

/-- Which branch of the simulators produced a decision record's `reason`
string.  The embedding keeps the branch identity and drops the interpolated
price/balance text. -/
inductive Reason where
  | insufficientData
  | notImplemented
  | buyExecuted
  | buyBlocked
  | sellExecuted
  | sellBlocked
  | holding
  | initLabel
deriving DecidableEq, Inhabited

/-- Chronological sorting (`df_prices.sort_index()`) of the
`(timestamp, price)` rows both simulators perform before iterating. -/
def sortRows (rows : List (ℕ × ℚ)) : List (ℕ × ℚ) :=
  List.insertionSort (fun a b : ℕ × ℚ => a.1 ≤ b.1) rows

instance : IsTotal (ℕ × ℚ) (fun a b : ℕ × ℚ => a.1 ≤ b.1) :=
  ⟨fun a b => Nat.le_total a.1 b.1⟩

instance : IsTrans (ℕ × ℚ) (fun a b : ℕ × ℚ => a.1 ≤ b.1) :=
  ⟨fun _ _ _ h1 h2 => Nat.le_trans h1 h2⟩

/-- One row of the `simulation_logs` list that both simulators build. -/
structure DecisionRecord where
  timestamp : ℕ
  side : Action
  quantity : ℕ
  reason : Reason
  balance : ℚ
  position : ℤ
  portfolio_value : ℚ
deriving DecidableEq, Inhabited

/-- Outcome of one loop iteration: the (possibly downgraded) action, the
reason, and the updated balance and position. -/
structure StepResult where
  side : Action
  reason : Reason
  balance : ℚ
  position : ℤ
deriving DecidableEq, Inhabited

/-- State of the YAML strategy-configuration file an on-disk loader reads:
absent, successfully parsed into per-strategy parameter dictionaries, or
raising on read/parse (the `except` branch). -/
inductive FileState where
  | missing
  | parsed (config : List (String × List (String × ℚ)))
  | unreadable
deriving DecidableEq, Inhabited

namespace Simulator

/-- The dictionary `DEFAULT_THRESHOLDS` from `simulator.py`. -/
def DEFAULT_THRESHOLDS : List (String × List (String × ℚ)) :=
  [(kSimple, [(kBuy, 2/100), (kSell, 3/100)])]

/-- The function `load_config_for_simulator` from `simulator.py`: passed
thresholds, when truthy, are returned as-is; otherwise the file's section for
the strategy is returned (empty when absent), with `DEFAULT_THRESHOLDS`
used when the file is missing or unreadable. -/
def load_config_for_simulator (file : FileState) (strategy_name : String)
    (passed_thresholds : List (String × ℚ)) : List (String × ℚ) :=
  if passed_thresholds ≠ [] then passed_thresholds
  else
    match file with
    | .missing => (DEFAULT_THRESHOLDS.lookup strategy_name).getD []
    | .parsed config => (config.lookup strategy_name).getD []
    | .unreadable => (DEFAULT_THRESHOLDS.lookup strategy_name).getD []

/-- One iteration of the simulation loop in `simulator.py`'s
`run_simulation`: a NaN moving average yields HOLD with the
insufficient-data reason; otherwise the named strategy proposes an action
("simple" calls `simple_strategy`, anything else proposes HOLD), a BUY is
executed only when `balance >= price` and `position == 0`, a SELL only when
`position >= 1`, and a blocked proposal is downgraded to HOLD with the
balance and position unchanged.  A final HOLD always carries the generic
holding reason, which in the source overwrites the unknown-strategy
message. -/
def simStep (strategy_name : String) (thresholds : List (String × ℚ))
    (balance : ℚ) (position : ℤ) (current_price : ℚ) (moving_avg : Option ℚ) :
    StepResult :=
  match moving_avg with
  | none => ⟨.hold, .insufficientData, balance, position⟩
  | some ma =>
    let action :=
      if strategy_name = kSimple then simple_strategy current_price ma thresholds
      else .hold
    match action with
    | .buy =>
      if balance ≥ current_price * 1 ∧ position = 0 then
        ⟨.buy, .buyExecuted, balance - current_price * 1, position + 1⟩
      else ⟨.hold, .buyBlocked, balance, position⟩
    | .sell =>
      if position ≥ 1 then
        ⟨.sell, .sellExecuted, balance + current_price * 1, position - 1⟩
      else ⟨.hold, .sellBlocked, balance, position⟩
    | .hold => ⟨.hold, .holding, balance, position⟩

/-- The simulation loop of `simulator.py`'s `run_simulation`, iterating over
rows `((timestamp, price), moving_avg)` while threading balance and
position.  Each iteration appends one decision record whose quantity is 1
exactly for an executed BUY or SELL and whose portfolio value is
`balance + position * price`. -/
def simLoop (strategy_name : String) (thresholds : List (String × ℚ)) :
    List ((ℕ × ℚ) × Option ℚ) → ℚ → ℤ → List DecisionRecord
  | [], _, _ => []
  | ((t, p), ma) :: rest, balance, position =>
    let r := simStep strategy_name thresholds balance position p ma
    ⟨t, r.side, if r.side = .buy ∨ r.side = .sell then 1 else 0, r.reason,
      r.balance, r.position, r.balance + (r.position : ℚ) * p⟩ ::
      simLoop strategy_name thresholds rest r.balance r.position

/-- The function `run_simulation` from `simulator.py`, taking the price rows
as `(timestamp, price)` pairs and the already-resolved thresholds.  Rows are
sorted chronologically (`sort_index`), the window-5 moving average is
attached, the loop runs, and `None` is returned when the thresholds resolve
to nothing or when no log rows were produced. -/
def run_simulation (rows : List (ℕ × ℚ)) (strategy_name : String)
    (thresholds : List (String × ℚ)) (initial_balance : ℚ) :
    Option (List DecisionRecord) :=
  if thresholds = [] then none
  else
    let sorted := sortRows rows
    let mas := calculate_sma (sorted.map Prod.snd) 5
    let logs := simLoop strategy_name thresholds (sorted.zip mas) initial_balance 0
    if logs = [] then none else some logs

end Simulator

namespace Strategy

/-- The dictionary `default_strategy_defaults` from
`load_strategy_config_for_sim` in `strategy.py`. -/
def default_strategy_defaults : List (String × List (String × ℚ)) :=
  [(kSimple, [(kBuy, 2/100), (kSell, 3/100), (kWindow, 5)])]

/-- Python `base.copy(); base.update(extra)` on string-keyed dictionaries:
keys of `extra` override keys of `base`, keys only in `base` survive. -/
def dictUpdate (base extra : List (String × ℚ)) : List (String × ℚ) :=
  base.filter (fun kv => (extra.lookup kv.1).isNone) ++ extra

/-- The function `load_strategy_config_for_sim` from `strategy.py`: passed
thresholds, when truthy, are returned as-is; otherwise the file's section for
the strategy is merged over the hard-coded defaults (`combined_config.update`),
with the plain defaults used when the file is missing or unreadable. -/
def load_strategy_config_for_sim (file : FileState) (strategy_name : String)
    (passed_thresholds : List (String × ℚ)) : List (String × ℚ) :=
  if passed_thresholds ≠ [] then passed_thresholds
  else
    match file with
    | .missing => (default_strategy_defaults.lookup strategy_name).getD []
    | .parsed config =>
      dictUpdate ((default_strategy_defaults.lookup strategy_name).getD [])
        ((config.lookup strategy_name).getD [])
    | .unreadable => (default_strategy_defaults.lookup strategy_name).getD []

/-- The `window_size` strategy parameter resolved with default 5
(`DEFAULT_WINDOW_SIZE`).  Configuration values are rationals in this
embedding; an integral entry is read off via its numerator. -/
def windowOfConfig (cfg : List (String × ℚ)) : ℕ :=
  match cfg.lookup kWindow with
  | some q => q.num.toNat
  | none => 5

/-- The thresholds dictionary `strategy.py` rebuilds before calling
`simple_strategy`: `{"buy": cfg.get("buy"), "sell": cfg.get("sell")}`.  When
either key is absent Python passes `None` and the comparison inside
`simple_strategy` raises `TypeError`, modelled as `none` here. -/
def stratThresholds (cfg : List (String × ℚ)) : Option (List (String × ℚ)) :=
  match cfg.lookup kBuy, cfg.lookup kSell with
  | some b, some s => some [(kBuy, b), (kSell, s)]
  | _, _ => none

/-- The action/reason proposal phase of one iteration of `strategy.py`'s
`run_simulation` loop: a NaN moving average with the "simple" strategy keeps
HOLD with the insufficient-data reason; the "simple" strategy otherwise calls
`simple_strategy` on the rebuilt thresholds (raising when a key is missing);
any other strategy name keeps HOLD with the not-implemented reason. -/
def proposeStrat (strategy_name : String) (cfg : List (String × ℚ))
    (current_price : ℚ) (moving_avg : Option ℚ) :
    Except String (Action × Reason) :=
  if moving_avg = none ∧ strategy_name = kSimple then
    .ok (.hold, .insufficientData)
  else if strategy_name = kSimple then
    match stratThresholds cfg with
    | some th => .ok (simple_strategy current_price (moving_avg.getD 0) th, .initLabel)
    | none => .error "TypeError: unsupported operand type"
  else .ok (.hold, .notImplemented)

/-- One iteration of the decision/execution phase of `strategy.py`'s
`run_simulation` loop.  The BUY branch evaluates
`cost = current_price * quantity_to_buy_buy`, a name that is never defined,
so an executed-or-blocked BUY raises `NameError` before touching the state;
a SELL executes only when `position >= 1`; a final HOLD keeps the proposal's
reason unless it was the bare initialisation label, which becomes the generic
holding reason. -/
def simStep (strategy_name : String) (cfg : List (String × ℚ))
    (balance : ℚ) (position : ℤ) (current_price : ℚ) (moving_avg : Option ℚ) :
    Except String StepResult :=
  match proposeStrat strategy_name cfg current_price moving_avg with
  | .error e => .error e
  | .ok (action, reason) =>
    match action with
    | .buy => .error "NameError: name quantity_to_buy_buy is not defined"
    | .sell =>
      if position ≥ 1 then
        .ok ⟨.sell, .sellExecuted, balance + current_price * 1, position - 1⟩
      else .ok ⟨.hold, .sellBlocked, balance, position⟩
    | .hold =>
      .ok ⟨.hold, if reason = .initLabel then .holding else reason, balance, position⟩

/-- The simulation loop of `strategy.py`'s `run_simulation`, propagating the
first raised exception and otherwise appending one decision record per row,
with quantity 1 exactly for an executed BUY or SELL. -/
def simLoop (strategy_name : String) (cfg : List (String × ℚ)) :
    List ((ℕ × ℚ) × Option ℚ) → ℚ → ℤ → Except String (List DecisionRecord)
  | [], _, _ => .ok []
  | ((t, p), ma) :: rest, balance, position =>
    match simStep strategy_name cfg balance position p ma with
    | .error e => .error e
    | .ok r =>
      match simLoop strategy_name cfg rest r.balance r.position with
      | .error e => .error e
      | .ok logs =>
        .ok (⟨t, r.side, if r.side = .buy ∨ r.side = .sell then 1 else 0, r.reason,
          r.balance, r.position, r.balance + (r.position : ℚ) * p⟩ :: logs)

/-- The function `run_simulation` from `strategy.py`, taking the price rows
as `(timestamp, price)` pairs and the already-resolved strategy parameters
(`load_strategy_config_for_sim` applied to passed parameters returns them
unchanged).  Rows are sorted chronologically, the moving average over the
configured window is attached, and the loop runs; an uncaught exception from
the loop escapes the function, `None` is returned when the parameters
resolve to nothing or when no log rows were produced. -/
def run_simulation (rows : List (ℕ × ℚ)) (strategy_name : String)
    (strategy_params : List (String × ℚ)) (initial_balance : ℚ) :
    Except String (Option (List DecisionRecord)) :=
  if strategy_params = [] then .ok none
  else
    let sorted := sortRows rows
    let mas := calculate_sma (sorted.map Prod.snd) (windowOfConfig strategy_params)
    match simLoop strategy_name strategy_params (sorted.zip mas) initial_balance 0 with
    | .error e => .error e
    | .ok logs => if logs = [] then .ok none else .ok (some logs)

end Strategy

/-! Basic dictionary lemmas. -/

theorem dictGet_of_lookup_none {d : List (String × ℚ)} {key : String}
    (h : d.lookup key = none) (fb : ℚ) : dictGet d key fb = fb := by
  simp [dictGet, h]

theorem dictGet_cons_self (d : List (String × ℚ)) (key : String) (v fb : ℚ) :
    dictGet ((key, v) :: d) key fb = v := by
  simp [dictGet, List.lookup]

theorem dictGet_cons_ne (d : List (String × ℚ)) (k k' : String) (hne : k ≠ k')
    (v fb : ℚ) : dictGet ((k', v) :: d) k fb = dictGet d k fb := by
  have h : (k == k') = false := beq_eq_false_iff_ne.mpr hne
  simp [dictGet, List.lookup, h]

theorem simple_strategy_congr (p ma : ℚ) (t1 t2 : List (String × ℚ))
    (hB : dictGet t1 kBuy (2/100) = dictGet t2 kBuy (2/100))
    (hS : dictGet t1 kSell (3/100) = dictGet t2 kSell (3/100)) :
    simple_strategy p ma t1 = simple_strategy p ma t2 := by
  unfold simple_strategy
  rw [hB, hS]

/-- C2 counterexample: with price = ma = -100 and the default fractions, the
price is strictly above ma·(1+s), yet the classifier does not return SELL —
it returns BUY, because the BUY branch fires first and the two bands overlap
for a negative moving average — so "SELL if and only if price > ma·(1+s)" is
false as stated. -/
theorem c2_sell_iff_fails_counterexample :
    simple_strategy (-100) (-100) [(kBuy, 2/100), (kSell, 3/100)] = .buy ∧
    simple_strategy (-100) (-100) [(kBuy, 2/100), (kSell, 3/100)] ≠ .sell ∧
    ((-100 : ℚ) * (1 + 3/100) < (-100 : ℚ)) := by
  refine ⟨?_, ?_, by norm_num⟩
  · with_unfolding_all decide
  · with_unfolding_all decide

/-- C2 (amended): the deviation classifier returns BUY iff price < ma·(1−b);
SELL iff price > ma·(1+s) and the BUY condition fails (BUY takes precedence
when both bands hold, which requires ma·(1−b) > ma·(1+s)); HOLD otherwise.
The three outcomes are exhaustive and mutually exclusive, and the function
depends only on its arguments.  Whenever the moving average and the two
fractions are nonnegative the bands cannot overlap and the claim's original
"SELL iff price > ma·(1+s)" holds unrestricted. -/
theorem c2_deviation_classifier_characterization (p ma b s : ℚ) :
    (simple_strategy p ma [(kBuy, b), (kSell, s)] = .buy ↔ p < ma * (1 - b)) ∧
    (simple_strategy p ma [(kBuy, b), (kSell, s)] = .sell ↔
      ¬ p < ma * (1 - b) ∧ ma * (1 + s) < p) ∧
    (simple_strategy p ma [(kBuy, b), (kSell, s)] = .hold ↔
      ¬ p < ma * (1 - b) ∧ ¬ ma * (1 + s) < p) ∧
    (simple_strategy p ma [(kBuy, b), (kSell, s)] = .buy ∨
      simple_strategy p ma [(kBuy, b), (kSell, s)] = .sell ∨
      simple_strategy p ma [(kBuy, b), (kSell, s)] = .hold) ∧
    (0 ≤ ma → 0 ≤ b → 0 ≤ s →
      (simple_strategy p ma [(kBuy, b), (kSell, s)] = .sell ↔
        ma * (1 + s) < p)) := by
  have hb : dictGet [(kBuy, b), (kSell, s)] kBuy (2/100) = b :=
    dictGet_cons_self _ _ _ _
  have hs : dictGet [(kBuy, b), (kSell, s)] kSell (3/100) = s := by
    rw [dictGet_cons_ne _ _ _ (by decide), dictGet_cons_self]
  have hchar :
      (simple_strategy p ma [(kBuy, b), (kSell, s)] = .buy ↔
        p < ma * (1 - b)) ∧
      (simple_strategy p ma [(kBuy, b), (kSell, s)] = .sell ↔
        ¬ p < ma * (1 - b) ∧ ma * (1 + s) < p) ∧
      (simple_strategy p ma [(kBuy, b), (kSell, s)] = .hold ↔
        ¬ p < ma * (1 - b) ∧ ¬ ma * (1 + s) < p) := by
    unfold simple_strategy
    rw [hb, hs]
    dsimp only
    split_ifs with h1 h2 <;> simp_all [gt_iff_lt]
  obtain ⟨hB, hS, hH⟩ := hchar
  refine ⟨hB, hS, hH, ?_, fun hma hb0 hs0 => ?_⟩
  · rcases hv : simple_strategy p ma [(kBuy, b), (kSell, s)] with _ | _ | _
    · exact Or.inl rfl
    · exact Or.inr (Or.inl rfl)
    · exact Or.inr (Or.inr rfl)
  · constructor
    · intro hsell
      exact (hS.mp hsell).2
    · intro hgt
      refine hS.mpr ⟨?_, hgt⟩
      have hband : ma * (1 - b) ≤ ma * (1 + s) :=
        mul_le_mul_of_nonneg_left (by linarith) hma
      linarith

/-- Witness for C2's nonnegative-domain clause: with ma = 100 and the
default fractions, price 110 is above the sell band and the classifier
returns SELL. -/
theorem c2_deviation_classifier_characterization_witness :
    simple_strategy 110 100 [(kBuy, 2/100), (kSell, 3/100)] = .sell ↔
      (100 : ℚ) * (1 + 3/100) < 110 :=
  (c2_deviation_classifier_characterization 110 100 (2/100)
    (3/100)).2.2.2.2 (by norm_num) (by norm_num) (by norm_num)

/-- C10: the deviation classifier is total on threshold dictionaries missing
the "buy" and/or "sell" key; a missing key behaves exactly as if the
hard-coded default fraction (0.02 for buy, 0.03 for sell) had been
supplied. -/
theorem c10_missing_threshold_keys_default (p ma : ℚ) (th : List (String × ℚ)) :
    (th.lookup kBuy = none →
      simple_strategy p ma th = simple_strategy p ma ((kBuy, 2/100) :: th)) ∧
    (th.lookup kSell = none →
      simple_strategy p ma th = simple_strategy p ma ((kSell, 3/100) :: th)) ∧
    (th.lookup kBuy = none → th.lookup kSell = none →
      simple_strategy p ma th =
        simple_strategy p ma [(kBuy, 2/100), (kSell, 3/100)]) := by
  refine ⟨fun hB => ?_, fun hS => ?_, fun hB hS => ?_⟩
  · refine simple_strategy_congr _ _ _ _ ?_ ?_
    · rw [dictGet_of_lookup_none hB, dictGet_cons_self]
    · rw [dictGet_cons_ne _ _ _ (by decide)]
  · refine simple_strategy_congr _ _ _ _ ?_ ?_
    · rw [dictGet_cons_ne _ _ _ (by decide)]
    · rw [dictGet_of_lookup_none hS, dictGet_cons_self]
  · refine simple_strategy_congr _ _ _ _ ?_ ?_
    · rw [dictGet_of_lookup_none hB, dictGet_cons_self]
    · rw [dictGet_of_lookup_none hS, dictGet_cons_ne _ _ _ (by decide),
        dictGet_cons_self]

/-- Witness for C10 at the empty dictionary and concrete price data. -/
theorem c10_missing_threshold_keys_default_witness :
    (simple_strategy 97 100 [] = simple_strategy 97 100 [(kBuy, 2/100)]) ∧
    (simple_strategy 97 100 [] = simple_strategy 97 100 [(kSell, 3/100)]) ∧
    (simple_strategy 97 100 [] =
      simple_strategy 97 100 [(kBuy, 2/100), (kSell, 3/100)]) :=
  ⟨(c10_missing_threshold_keys_default 97 100 []).1 rfl,
   (c10_missing_threshold_keys_default 97 100 []).2.1 rfl,
   (c10_missing_threshold_keys_default 97 100 []).2.2 rfl rfl⟩

/-! Lemmas about indicator series built with `List.range`. -/

theorem getD_range_map {α : Type} {n : ℕ} (f : ℕ → α) {i : ℕ} (h : i < n)
    (d : α) : ((List.range n).map f).getD i d = f i := by
  rw [List.getD_eq_getElem?_getD, List.getElem?_map, List.getElem?_range h]
  rfl

theorem getD_of_length_le {α : Type} {l : List α} {i : ℕ} (h : l.length ≤ i)
    (d : α) : l.getD i d = d := by
  rw [List.getD_eq_getElem?_getD, List.getElem?_eq_none h]
  rfl

/-- C4: for a positive window `w`, the moving-average series has one entry
per price; the entry at `i` is undefined when fewer than `w` prices have
been seen (`i < w - 1`, i.e. `i + 1 < w`); otherwise it is the arithmetic
mean of exactly the `w` trailing prices ending at `i`; and truncating the
series anywhere after `i` leaves the value at `i` unchanged (no
look-ahead). -/
theorem c4_sma_trailing_mean_no_lookahead (prices : List ℚ) (w : ℕ)
    (hw : 1 ≤ w) :
    ((calculate_sma prices w).length = prices.length) ∧
    (∀ i, i < prices.length → i + 1 < w →
      (calculate_sma prices w).getD i none = none) ∧
    (∀ i, i < prices.length → w ≤ i + 1 →
      (trailingWindow prices w i).length = w ∧
      (calculate_sma prices w).getD i none =
        some ((trailingWindow prices w i).sum / w)) ∧
    (∀ n i, i < n →
      (calculate_sma (prices.take n) w).getD i none =
        (calculate_sma prices w).getD i none) := by
  refine ⟨by simp [calculate_sma], fun i hi hiw => ?_, fun i hi hwi => ?_,
    fun n i hin => ?_⟩
  · rw [calculate_sma, getD_range_map _ hi]
    rw [if_neg (by omega)]
  · constructor
    · rw [trailingWindow, List.length_drop, List.length_take]
      omega
    · rw [calculate_sma, getD_range_map _ hi, if_pos (by omega)]
  · by_cases hilen : i < prices.length
    · have hitake : i < (prices.take n).length := by
        rw [List.length_take]
        omega
      rw [calculate_sma, getD_range_map _ hitake, calculate_sma,
        getD_range_map _ hilen]
      have htw : trailingWindow (prices.take n) w i = trailingWindow prices w i := by
        rw [trailingWindow, trailingWindow, List.take_take,
          min_eq_left (by omega)]
      rw [htw]
    · have h1 : (calculate_sma (prices.take n) w).length ≤ i := by
        simp only [calculate_sma, List.length_map, List.length_range,
          List.length_take]
        omega
      have h2 : (calculate_sma prices w).length ≤ i := by
        simp only [calculate_sma, List.length_map, List.length_range]
        omega
      rw [getD_of_length_le h1, getD_of_length_le h2]

/-- Witness for C4 on the prices [1, 2, 3] with window 2. -/
theorem c4_sma_trailing_mean_no_lookahead_witness :
    ((calculate_sma [1, 2, 3] 2).length = 3) ∧
    ((calculate_sma [1, 2, 3] 2).getD 0 none = none) ∧
    ((trailingWindow [1, 2, 3] 2 1).length = 2 ∧
      (calculate_sma [1, 2, 3] 2).getD 1 none =
        some ((trailingWindow [1, 2, 3] 2 1).sum / 2)) ∧
    ((calculate_sma (List.take 2 [1, 2, 3]) 2).getD 1 none =
      (calculate_sma [1, 2, 3] 2).getD 1 none) :=
  ⟨(c4_sma_trailing_mean_no_lookahead [1, 2, 3] 2 (by decide)).1,
   (c4_sma_trailing_mean_no_lookahead [1, 2, 3] 2 (by decide)).2.1 0
     (by decide) (by decide),
   (c4_sma_trailing_mean_no_lookahead [1, 2, 3] 2 (by decide)).2.2.1 1
     (by decide) (by decide),
   (c4_sma_trailing_mean_no_lookahead [1, 2, 3] 2 (by decide)).2.2.2 2 1
     (by decide)⟩

/-! Nonnegativity of the smoothed gain/loss series. -/

theorem gainsAux_nonneg (l : List ℚ) : ∀ prev, ∀ x ∈ gainsAux prev l, 0 ≤ x := by
  induction l with
  | nil => intro prev x hx; simp [gainsAux] at hx
  | cons p rest ih =>
    intro prev x hx
    rw [gainsAux, List.mem_cons] at hx
    rcases hx with hx | hx
    · subst hx
      split_ifs with h
      · linarith
      · exact le_refl 0
    · exact ih p x hx

theorem gains_nonneg (l : List ℚ) : ∀ x ∈ gains l, 0 ≤ x := by
  cases l with
  | nil => intro x hx; simp [gains] at hx
  | cons p rest =>
    intro x hx
    rw [gains, List.mem_cons] at hx
    rcases hx with hx | hx
    · simp [hx]
    · exact gainsAux_nonneg rest p x hx

theorem lossesAux_nonneg (l : List ℚ) : ∀ prev, ∀ x ∈ lossesAux prev l, 0 ≤ x := by
  induction l with
  | nil => intro prev x hx; simp [lossesAux] at hx
  | cons p rest ih =>
    intro prev x hx
    rw [lossesAux, List.mem_cons] at hx
    rcases hx with hx | hx
    · subst hx
      split_ifs with h
      · linarith
      · exact le_refl 0
    · exact ih p x hx

theorem losses_nonneg (l : List ℚ) : ∀ x ∈ losses l, 0 ≤ x := by
  cases l with
  | nil => intro x hx; simp [losses] at hx
  | cons p rest =>
    intro x hx
    rw [losses, List.mem_cons] at hx
    rcases hx with hx | hx
    · simp [hx]
    · exact lossesAux_nonneg rest p x hx

theorem ewmaFrom_nonneg (a : ℚ) (ha0 : 0 ≤ a) (ha1 : a ≤ 1) (l : List ℚ) :
    ∀ prev, 0 ≤ prev → (∀ x ∈ l, 0 ≤ x) → ∀ y ∈ ewmaFrom a prev l, 0 ≤ y := by
  induction l with
  | nil => intro prev _ _ y hy; simp [ewmaFrom] at hy
  | cons x rest ih =>
    intro prev hprev hl y hy
    rw [ewmaFrom] at hy
    have hx : 0 ≤ x := hl x (List.mem_cons_self x rest)
    have hy0 : 0 ≤ (1 - a) * prev + a * x := by
      have := mul_nonneg (by linarith : (0:ℚ) ≤ 1 - a) hprev
      have := mul_nonneg ha0 hx
      linarith
    rw [List.mem_cons] at hy
    rcases hy with hy | hy
    · subst hy; exact hy0
    · exact ih _ hy0 (fun z hz => hl z (List.mem_cons_of_mem _ hz)) y hy

theorem ewma_nonneg (w : ℕ) (hw : 1 ≤ w) (l : List ℚ) (hl : ∀ x ∈ l, 0 ≤ x) :
    ∀ y ∈ ewma w l, 0 ≤ y := by
  cases l with
  | nil => intro y hy; simp [ewma] at hy
  | cons x rest =>
    intro y hy
    have hx : 0 ≤ x := hl x (List.mem_cons_self x rest)
    have hwq : (1 : ℚ) ≤ (w : ℚ) := by exact_mod_cast hw
    have ha0 : (0 : ℚ) ≤ 1 / (w : ℚ) := by positivity
    have ha1 : 1 / (w : ℚ) ≤ 1 := by
      rw [div_le_one (by linarith)]
      exact hwq
    rw [ewma, List.mem_cons] at hy
    rcases hy with hy | hy
    · subst hy; exact hx
    · exact ewmaFrom_nonneg _ ha0 ha1 rest x hx
        (fun z hz => hl z (List.mem_cons_of_mem _ hz)) y hy

theorem getD_nonneg {l : List ℚ} (hl : ∀ x ∈ l, 0 ≤ x) (i : ℕ) :
    0 ≤ l.getD i 0 := by
  by_cases hi : i < l.length
  · rw [List.getD_eq_getElem?_getD, List.getElem?_eq_getElem hi]
    exact hl _ (List.getElem_mem hi)
  · rw [getD_of_length_le (by omega)]

theorem rsiValue_bounds {g l : ℚ} (hg : 0 ≤ g) (hl : 0 ≤ l) :
    0 ≤ rsiValue g l ∧ rsiValue g l ≤ 100 := by
  rw [rsiValue]
  split_ifs with h
  · norm_num
  · have hlpos : 0 < l := lt_of_le_of_ne hl (Ne.symm h)
    have hrs : 0 ≤ g / l := div_nonneg hg hl
    have hdenom : (1 : ℚ) ≤ 1 + g / l := by linarith
    have hle : 100 / (1 + g / l) ≤ 100 := by
      calc 100 / (1 + g / l) ≤ 100 / 1 :=
            div_le_div_of_nonneg_left (by norm_num) (by norm_num) hdenom
        _ = 100 := by norm_num
    have hge : 0 ≤ 100 / (1 + g / l) := by positivity
    constructor <;> linarith

/-- C5: for a positive window `w`, every defined entry of the oscillator lies
in [0, 100]; wherever the exponentially smoothed loss is exactly zero the
entry is forced to 100; and the first `w` entries (indices 0 through w-1)
are undefined regardless of the smoothed values there. -/
theorem c5_rsi_bounded_and_warmup (prices : List ℚ) (w : ℕ) (hw : 1 ≤ w) :
    (∀ i, i < w → i < prices.length →
      (calculate_rsi prices w).getD i none = none) ∧
    (∀ i x, (calculate_rsi prices w).getD i none = some x →
      0 ≤ x ∧ x ≤ 100) ∧
    (∀ i, w ≤ i → i < prices.length →
      (ewma w (losses prices)).getD i 0 = 0 →
      (calculate_rsi prices w).getD i none = some 100) := by
  refine ⟨fun i hiw hi => ?_, fun i x hx => ?_, fun i hwi hi h0 => ?_⟩
  · rw [calculate_rsi]
    rw [getD_range_map _ hi, if_pos hiw]
  · by_cases hi : i < prices.length
    · rw [calculate_rsi] at hx
      rw [getD_range_map _ hi] at hx
      by_cases hiw : i < w
      · rw [if_pos hiw] at hx
        cases hx
      · rw [if_neg hiw] at hx
        have hg : 0 ≤ (ewma w (gains prices)).getD i 0 :=
          getD_nonneg (ewma_nonneg w hw _ (gains_nonneg prices)) i
        have hl : 0 ≤ (ewma w (losses prices)).getD i 0 :=
          getD_nonneg (ewma_nonneg w hw _ (losses_nonneg prices)) i
        have hxv := Option.some_inj.mp hx
        rw [← hxv]
        exact rsiValue_bounds hg hl
    · rw [calculate_rsi] at hx
      rw [getD_of_length_le (by simp; omega)] at hx
      cases hx
  · rw [calculate_rsi]
    rw [getD_range_map _ hi, if_neg (by omega), h0, rsiValue, if_pos rfl]

/-- Witness for C5 on the prices [1, 2, 3] with window 2: the warm-up entry
is undefined, and the defined entry at index 2 (where the smoothed loss is
zero) is 100, which lies in [0, 100]. -/
theorem c5_rsi_bounded_and_warmup_witness :
    ((calculate_rsi [1, 2, 3] 2).getD 0 none = none) ∧
    (0 ≤ (100 : ℚ) ∧ (100 : ℚ) ≤ 100) ∧
    ((calculate_rsi [1, 2, 3] 2).getD 2 none = some 100) :=
  ⟨(c5_rsi_bounded_and_warmup [1, 2, 3] 2 (by decide)).1 0 (by decide) (by decide),
   (c5_rsi_bounded_and_warmup [1, 2, 3] 2 (by decide)).2.1 2 100
     (by with_unfolding_all decide),
   (c5_rsi_bounded_and_warmup [1, 2, 3] 2 (by decide)).2.2 2 (by decide)
     (by decide) (by with_unfolding_all decide)⟩

/-- C8: the cross/threshold classifier never assigns BUY (1) or SELL (-1) at
an index where the moving average or the oscillator is undefined; the signal
there is HOLD (0). -/
theorem c8_no_signal_on_undefined_indicator (close : List ℚ)
    (smaw rsiw : ℕ) (oversold overbought : ℚ) (i : ℕ) (hi : i < close.length)
    (h : (calculate_sma close smaw).getD i none = none ∨
      (calculate_rsi close rsiw).getD i none = none) :
    (generate_signals close smaw rsiw oversold overbought).getD i 0 = 0 := by
  rw [generate_signals]
  rw [getD_range_map _ hi]
  rcases h with h | h
  · rw [h]
  · rw [h]
    cases (calculate_sma close smaw).getD i none <;> rfl

/-- Witness for C8: with a two-price series and SMA window 5, the moving
average at index 0 is undefined and the signal there is 0. -/
theorem c8_no_signal_on_undefined_indicator_witness :
    (generate_signals [1, 2] 5 1 30 70).getD 0 0 = 0 :=
  c8_no_signal_on_undefined_indicator [1, 2] 5 1 30 70 0 (by decide)
    (Or.inl (by with_unfolding_all decide))

/-! Characterization of one `simulator.py` loop iteration. -/

theorem simulator_simStep_spec (nm : String) (th : List (String × ℚ)) (bal : ℚ)
    (pos : ℤ) (p : ℚ) (ma : Option ℚ) :
    ((Simulator.simStep nm th bal pos p ma).side = .buy →
      p ≤ bal ∧ pos = 0 ∧
      (Simulator.simStep nm th bal pos p ma).balance = bal - p ∧
      (Simulator.simStep nm th bal pos p ma).position = pos + 1) ∧
    ((Simulator.simStep nm th bal pos p ma).side = .sell →
      1 ≤ pos ∧ (Simulator.simStep nm th bal pos p ma).balance = bal + p ∧
      (Simulator.simStep nm th bal pos p ma).position = pos - 1) ∧
    ((Simulator.simStep nm th bal pos p ma).side = .hold →
      (Simulator.simStep nm th bal pos p ma).balance = bal ∧
      (Simulator.simStep nm th bal pos p ma).position = pos) := by
  cases ma with
  | none => simp [Simulator.simStep]
  | some m =>
    simp only [Simulator.simStep]
    rcases (if nm = kSimple then simple_strategy p m th else Action.hold) with
      _ | _ | _
    · dsimp only
      split_ifs with hc
      · obtain ⟨h1, h2⟩ := hc
        rw [ge_iff_le, mul_one] at h1
        exact ⟨fun _ => ⟨h1, h2, by show bal - p * 1 = bal - p; ring, rfl⟩,
          fun h => absurd h (by decide), fun h => absurd h (by decide)⟩
      · exact ⟨fun h => absurd h (by decide), fun h => absurd h (by decide),
          fun _ => ⟨rfl, rfl⟩⟩
    · dsimp only
      split_ifs with hc
      · exact ⟨fun h => absurd h (by decide),
          fun _ => ⟨hc, by show bal + p * 1 = bal + p; ring, rfl⟩,
          fun h => absurd h (by decide)⟩
      · exact ⟨fun h => absurd h (by decide), fun h => absurd h (by decide),
          fun _ => ⟨rfl, rfl⟩⟩
    · dsimp only
      exact ⟨fun h => absurd h (by decide), fun h => absurd h (by decide),
        fun _ => ⟨rfl, rfl⟩⟩

theorem simulator_simStep_position (nm : String) (th : List (String × ℚ))
    (bal : ℚ) (pos : ℤ) (p : ℚ) (ma : Option ℚ) (h0 : 0 ≤ pos) (h1 : pos ≤ 1) :
    0 ≤ (Simulator.simStep nm th bal pos p ma).position ∧
    (Simulator.simStep nm th bal pos p ma).position ≤ 1 := by
  obtain ⟨hb, hs, hh⟩ := simulator_simStep_spec nm th bal pos p ma
  rcases hside : (Simulator.simStep nm th bal pos p ma).side with _ | _ | _
  · obtain ⟨_, h2, _, h4⟩ := hb hside
    omega
  · obtain ⟨h2, _, h4⟩ := hs hside
    omega
  · obtain ⟨_, h3⟩ := hh hside
    omega

theorem simulator_simLoop_invariant (nm : String) (th : List (String × ℚ)) :
    ∀ (l : List ((ℕ × ℚ) × Option ℚ)) (bal : ℚ) (pos : ℤ), 0 ≤ pos → pos ≤ 1 →
      ∀ rec ∈ Simulator.simLoop nm th l bal pos,
        (0 ≤ rec.position ∧ rec.position ≤ 1) ∧
        (rec.side = .buy → 0 ≤ rec.balance) := by
  intro l
  induction l with
  | nil =>
    intro bal pos _ _ rec hrec
    simp [Simulator.simLoop] at hrec
  | cons x rest ih =>
    obtain ⟨⟨t, p⟩, ma⟩ := x
    intro bal pos hp0 hp1 rec hrec
    simp only [Simulator.simLoop] at hrec
    obtain ⟨hb, hs, hh⟩ := simulator_simStep_spec nm th bal pos p ma
    obtain ⟨hq0, hq1⟩ := simulator_simStep_position nm th bal pos p ma hp0 hp1
    rw [List.mem_cons] at hrec
    rcases hrec with hrec | hrec
    · subst hrec
      refine ⟨⟨hq0, hq1⟩, fun hside => ?_⟩
      obtain ⟨hle, _, hbal, _⟩ := hb hside
      rw [show (⟨t, (Simulator.simStep nm th bal pos p ma).side, _, _,
        (Simulator.simStep nm th bal pos p ma).balance,
        (Simulator.simStep nm th bal pos p ma).position, _⟩ :
          DecisionRecord).balance =
        (Simulator.simStep nm th bal pos p ma).balance from rfl, hbal]
      linarith
    · exact ih (Simulator.simStep nm th bal pos p ma).balance
        (Simulator.simStep nm th bal pos p ma).position hq0 hq1 rec hrec

theorem simulator_run_logs (rows : List (ℕ × ℚ)) (nm : String)
    (th : List (String × ℚ)) (b0 : ℚ) (logs : List DecisionRecord)
    (h : Simulator.run_simulation rows nm th b0 = some logs) :
    logs = Simulator.simLoop nm th
      ((sortRows rows).zip (calculate_sma ((sortRows rows).map Prod.snd) 5))
      b0 0 := by
  simp only [Simulator.run_simulation] at h
  split_ifs at h with h1 h2
  all_goals cases h
  all_goals rfl

theorem strategy_simStep_ok_spec (nm : String) (cfg : List (String × ℚ))
    (bal : ℚ) (pos : ℤ) (p : ℚ) (ma : Option ℚ) (r : StepResult)
    (h : Strategy.simStep nm cfg bal pos p ma = .ok r) :
    r.side ≠ .buy ∧
    (r.side = .sell → 1 ≤ pos ∧ r.balance = bal + p ∧ r.position = pos - 1) ∧
    (r.side = .hold → r.balance = bal ∧ r.position = pos) := by
  simp only [Strategy.simStep] at h
  rcases hp : Strategy.proposeStrat nm cfg p ma with e | ar
  · rw [hp] at h
    cases h
  · rw [hp] at h
    obtain ⟨a, reason⟩ := ar
    rcases a with _ | _ | _
    · dsimp only at h
      cases h
    · dsimp only at h
      split_ifs at h with hc
      · cases h
        refine ⟨fun hh => by simp at hh, fun _ => ⟨hc, ?_, rfl⟩,
          fun hh => by simp at hh⟩
        show bal + p * 1 = bal + p
        ring
      · cases h
        exact ⟨fun hh => by simp at hh, fun hh => by simp at hh,
          fun _ => ⟨rfl, rfl⟩⟩
    · dsimp only at h
      cases h
      exact ⟨fun hh => by simp at hh, fun hh => by simp at hh,
        fun _ => ⟨rfl, rfl⟩⟩

theorem strategy_simLoop_invariant (nm : String) (cfg : List (String × ℚ)) :
    ∀ (l : List ((ℕ × ℚ) × Option ℚ)) (bal : ℚ) (pos : ℤ),
      0 ≤ pos → pos ≤ 1 →
      ∀ logs, Strategy.simLoop nm cfg l bal pos = .ok logs →
      ∀ rec ∈ logs, (0 ≤ rec.position ∧ rec.position ≤ 1) ∧
        rec.side ≠ .buy := by
  intro l
  induction l with
  | nil =>
    intro bal pos _ _ logs hlogs rec hrec
    simp only [Strategy.simLoop] at hlogs
    cases hlogs
    simp at hrec
  | cons x rest ih =>
    obtain ⟨⟨t, p⟩, ma⟩ := x
    intro bal pos h0 h1 logs hlogs rec hrec
    simp only [Strategy.simLoop] at hlogs
    rcases hstep : Strategy.simStep nm cfg bal pos p ma with e | r
    · rw [hstep] at hlogs
      cases hlogs
    · rw [hstep] at hlogs
      dsimp only at hlogs
      rcases hrest : Strategy.simLoop nm cfg rest r.balance r.position with
        e | logs'
      · rw [hrest] at hlogs
        cases hlogs
      · rw [hrest] at hlogs
        dsimp only at hlogs
        cases hlogs
        obtain ⟨hnb, hsell, hhold⟩ :=
          strategy_simStep_ok_spec nm cfg bal pos p ma r hstep
        have hr0 : 0 ≤ r.position ∧ r.position ≤ 1 := by
          rcases hside : r.side with _ | _ | _
          · exact absurd hside hnb
          · obtain ⟨hge, _, hpos⟩ := hsell hside
            omega
          · obtain ⟨_, hpos⟩ := hhold hside
            omega
        rw [List.mem_cons] at hrec
        rcases hrec with hrec | hrec
        · subst hrec
          exact ⟨hr0, hnb⟩
        · exact ih r.balance r.position hr0.1 hr0.2 logs' hrest rec hrec

theorem strategy_run_ok_logs (rows : List (ℕ × ℚ)) (nm : String)
    (params : List (String × ℚ)) (b0 : ℚ) (logs : List DecisionRecord)
    (h : Strategy.run_simulation rows nm params b0 = .ok (some logs)) :
    Strategy.simLoop nm params
      ((sortRows rows).zip (calculate_sma ((sortRows rows).map Prod.snd)
        (Strategy.windowOfConfig params))) b0 0 = .ok logs := by
  simp only [Strategy.run_simulation] at h
  split_ifs at h with h1
  · cases h
  · rcases hloop : Strategy.simLoop nm params
        ((sortRows rows).zip (calculate_sma ((sortRows rows).map Prod.snd)
          (Strategy.windowOfConfig params))) b0 0 with e | logs'
    · rw [hloop] at h
      cases h
    · rw [hloop] at h
      dsimp only at h
      split_ifs at h with h2
      · cases h
      · cases h
        rfl

/-- C1: every decision record of a completed simulation has position 0 or 1
and an executed BUY never leaves the balance negative, in both engines; at
the level of one `simulator.py` step a BUY executes only when
`balance >= price` and `position == 0`, a SELL only when `position >= 1`,
while any downgraded-to-HOLD step leaves balance and position unchanged
(in `strategy.py`'s engine a completed run contains no executed BUY at all,
its BUY branch being unreachable without an exception). -/
theorem c1_simulation_invariants (rows : List (ℕ × ℚ)) (nm : String)
    (th : List (String × ℚ)) (b0 : ℚ) (hb0 : 0 ≤ b0)
    (logs : List DecisionRecord)
    (hrun : Simulator.run_simulation rows nm th b0 = some logs) :
    (∀ rec ∈ logs, 0 ≤ rec.position ∧ rec.position ≤ 1) ∧
    (∀ rec ∈ logs, rec.side = .buy → 0 ≤ rec.balance) ∧
    (∀ (nm' : String) (th' : List (String × ℚ)) (bal : ℚ) (pos : ℤ) (p : ℚ)
        (ma : Option ℚ),
      ((Simulator.simStep nm' th' bal pos p ma).side = .buy →
        p ≤ bal ∧ pos = 0 ∧
        (Simulator.simStep nm' th' bal pos p ma).balance = bal - p ∧
        (Simulator.simStep nm' th' bal pos p ma).position = pos + 1) ∧
      ((Simulator.simStep nm' th' bal pos p ma).side = .sell →
        1 ≤ pos ∧
        (Simulator.simStep nm' th' bal pos p ma).position = pos - 1) ∧
      ((Simulator.simStep nm' th' bal pos p ma).side = .hold →
        (Simulator.simStep nm' th' bal pos p ma).balance = bal ∧
        (Simulator.simStep nm' th' bal pos p ma).position = pos)) ∧
    (∀ logs2, Strategy.run_simulation rows nm th b0 = .ok (some logs2) →
      ∀ rec ∈ logs2, (0 ≤ rec.position ∧ rec.position ≤ 1) ∧
        rec.side ≠ .buy) := by
  have hlogs := simulator_run_logs rows nm th b0 logs hrun
  have hinv := simulator_simLoop_invariant nm th
    ((sortRows rows).zip (calculate_sma ((sortRows rows).map Prod.snd) 5))
    b0 0 le_rfl zero_le_one
  rw [← hlogs] at hinv
  refine ⟨fun rec hrec => (hinv rec hrec).1, fun rec hrec => (hinv rec hrec).2,
    fun nm' th' bal pos p ma => ?_, fun logs2 hrun2 => ?_⟩
  · obtain ⟨hb, hs, hh⟩ := simulator_simStep_spec nm' th' bal pos p ma
    exact ⟨hb, fun h => ⟨(hs h).1, (hs h).2.2⟩, hh⟩
  · exact strategy_simLoop_invariant nm th _ b0 0 le_rfl zero_le_one logs2
      (strategy_run_ok_logs rows nm th b0 logs2 hrun2)

/-- Witness for C1 on a one-row series with zero starting balance. -/
theorem c1_simulation_invariants_witness :
    ∃ logs, Simulator.run_simulation [(0, 5)] kSimple [(kBuy, 1)] 0 = some logs ∧
      ∀ rec ∈ logs, 0 ≤ rec.position ∧ rec.position ≤ 1 := by
  refine ⟨[⟨0, .hold, 0, .insufficientData, 0, 0, 0⟩],
    by with_unfolding_all decide, ?_⟩
  exact (c1_simulation_invariants [(0, 5)] kSimple [(kBuy, 1)] 0 le_rfl
    [⟨0, .hold, 0, .insufficientData, 0, 0, 0⟩]
    (by with_unfolding_all decide)).1

set_option maxRecDepth 100000 in
/-- C3 (evidence): on the scenario prices [100, 98, 96, 94, 92, 150] with
window 5, fractions 0.02/0.03 and initial balance 1000, `simulator.py`'s
engine produces exactly the claimed log: BUY executed at index 4 leaving
balance 908 and position 1, SELL executed at index 5 leaving balance 1058
and position 0.  `strategy.py`'s engine, the second implementation the claim
covers, instead raises `NameError` (its BUY branch reads the undefined name
`quantity_to_buy_buy`), so the claimed trade never completes there. -/
theorem c3_scenario_buy_sell_and_nameerror :
    Simulator.run_simulation
      [(0, 100), (1, 98), (2, 96), (3, 94), (4, 92), (5, 150)]
      kSimple [(kBuy, 2/100), (kSell, 3/100)] 1000 =
      some [⟨0, .hold, 0, .insufficientData, 1000, 0, 1000⟩,
        ⟨1, .hold, 0, .insufficientData, 1000, 0, 1000⟩,
        ⟨2, .hold, 0, .insufficientData, 1000, 0, 1000⟩,
        ⟨3, .hold, 0, .insufficientData, 1000, 0, 1000⟩,
        ⟨4, .buy, 1, .buyExecuted, 908, 1, 1000⟩,
        ⟨5, .sell, 1, .sellExecuted, 1058, 0, 1058⟩] ∧
    Strategy.run_simulation
      [(0, 100), (1, 98), (2, 96), (3, 94), (4, 92), (5, 150)]
      kSimple [(kBuy, 2/100), (kSell, 3/100)] 1000 =
      .error "NameError: name quantity_to_buy_buy is not defined" := by
  constructor
  · with_unfolding_all rfl
  · with_unfolding_all rfl

/-! Shape lemmas for the simulation loop and the chronological sort. -/

theorem sortRows_perm (rows : List (ℕ × ℚ)) : (sortRows rows).Perm rows :=
  List.perm_insertionSort _ rows

theorem sortRows_pairwise (rows : List (ℕ × ℚ)) :
    (sortRows rows).Pairwise (fun a b : ℕ × ℚ => a.1 ≤ b.1) :=
  List.sorted_insertionSort _ rows

theorem simulator_simLoop_timestamps (nm : String) (th : List (String × ℚ)) :
    ∀ (l : List ((ℕ × ℚ) × Option ℚ)) (bal : ℚ) (pos : ℤ),
      (Simulator.simLoop nm th l bal pos).map DecisionRecord.timestamp =
        l.map (fun x => x.1.1) := by
  intro l
  induction l with
  | nil => intro bal pos; rfl
  | cons x rest ih =>
    obtain ⟨⟨t, p⟩, ma⟩ := x
    intro bal pos
    simp only [Simulator.simLoop, List.map]
    rw [ih]

theorem calculate_sma_length (prices : List ℚ) (w : ℕ) :
    (calculate_sma prices w).length = prices.length := by
  simp [calculate_sma]

theorem zip_mas_timestamps (rows : List (ℕ × ℚ)) (w : ℕ) :
    ((sortRows rows).zip
        (calculate_sma ((sortRows rows).map Prod.snd) w)).map
      (fun x => x.1.1) = (sortRows rows).map Prod.fst := by
  have hlen : (calculate_sma ((sortRows rows).map Prod.snd) w).length =
      (sortRows rows).length := by
    rw [calculate_sma_length, List.length_map]
  have h1 : ((sortRows rows).zip
      (calculate_sma ((sortRows rows).map Prod.snd) w)).map
        (fun x => x.1.1) =
      (((sortRows rows).zip
        (calculate_sma ((sortRows rows).map Prod.snd) w)).map
          Prod.fst).map Prod.fst := by
    rw [List.map_map]
    rfl
  rw [h1, List.map_fst_zip _ _ (le_of_eq hlen.symm)]

theorem strategy_simLoop_ok_timestamps (nm : String)
    (cfg : List (String × ℚ)) :
    ∀ (l : List ((ℕ × ℚ) × Option ℚ)) (bal : ℚ) (pos : ℤ)
      (logs : List DecisionRecord),
      Strategy.simLoop nm cfg l bal pos = .ok logs →
      logs.map DecisionRecord.timestamp = l.map (fun x => x.1.1) := by
  intro l
  induction l with
  | nil =>
    intro bal pos logs hlogs
    simp only [Strategy.simLoop] at hlogs
    cases hlogs
    rfl
  | cons x rest ih =>
    obtain ⟨⟨t, p⟩, ma⟩ := x
    intro bal pos logs hlogs
    simp only [Strategy.simLoop] at hlogs
    rcases hstep : Strategy.simStep nm cfg bal pos p ma with e | r
    · rw [hstep] at hlogs
      cases hlogs
    · rw [hstep] at hlogs
      dsimp only at hlogs
      rcases hrest : Strategy.simLoop nm cfg rest r.balance r.position with
        e | logs'
      · rw [hrest] at hlogs
        cases hlogs
      · rw [hrest] at hlogs
        dsimp only at hlogs
        cases hlogs
        simp only [List.map]
        rw [ih r.balance r.position logs' hrest]

/-- C6 counterexample: the non-empty series [10, 10, 10, 10, 2] makes the
"simple" strategy propose a BUY at index 4 (price 2 below the band around
the moving average 8.4), and `strategy.py`'s `run_simulation` — one of the
two implementations the claim covers — then aborts with `NameError` instead
of visiting every timestamp and producing one decision record each. -/
theorem c6_strategy_abort_counterexample :
    Strategy.run_simulation [(0, 10), (1, 10), (2, 10), (3, 10), (4, 2)]
      kSimple [(kBuy, 2/100), (kSell, 3/100)] 1000 =
      .error "NameError: name quantity_to_buy_buy is not defined" ∧
    ([(0, 10), (1, 10), (2, 10), (3, 10), (4, 2)] : List (ℕ × ℚ)) ≠ [] := by
  constructor
  · with_unfolding_all rfl
  · decide

/-- C6 (amended): both engines return None ("no result") on an empty price
series.  On a non-empty series with non-empty thresholds `simulator.py`'s
engine always returns a log with exactly one record per input row, whose
timestamps are in ascending order and are a permutation of the input
timestamps; `strategy.py`'s engine produces a log of the same shape on every
run its loop completes, but on inputs whose classifier proposes a BUY it
aborts with `NameError` (the C3 defect) and yields no log at all. -/
theorem c6_empty_none_nonempty_complete (rows : List (ℕ × ℚ)) (nm : String)
    (th : List (String × ℚ)) (b0 : ℚ) :
    (rows = [] → Simulator.run_simulation rows nm th b0 = none ∧
      Strategy.run_simulation rows nm th b0 = .ok none) ∧
    (rows ≠ [] → th ≠ [] → ∃ logs,
      Simulator.run_simulation rows nm th b0 = some logs ∧
      logs.length = rows.length ∧
      (logs.map DecisionRecord.timestamp).Sorted (fun a b : ℕ => a ≤ b) ∧
      (logs.map DecisionRecord.timestamp).Perm (rows.map Prod.fst)) ∧
    (∀ logs, Strategy.run_simulation rows nm th b0 = .ok (some logs) →
      logs.length = rows.length ∧
      (logs.map DecisionRecord.timestamp).Sorted (fun a b : ℕ => a ≤ b) ∧
      (logs.map DecisionRecord.timestamp).Perm (rows.map Prod.fst)) := by
  refine ⟨?_, ?_, ?_⟩
  · rintro rfl
    constructor
    · by_cases hth : th = []
      · simp [Simulator.run_simulation, hth]
      · simp [Simulator.run_simulation, hth, sortRows, Simulator.simLoop,
          calculate_sma]
    · by_cases hth : th = []
      · simp [Strategy.run_simulation, hth]
      · simp [Strategy.run_simulation, hth, sortRows, Strategy.simLoop,
          calculate_sma]
  · intro hrows hth
    have hlen_sorted : (sortRows rows).length = rows.length :=
      (sortRows_perm rows).length_eq
    have hlen_mas :
        (calculate_sma ((sortRows rows).map Prod.snd) 5).length =
          (sortRows rows).length := by
      rw [calculate_sma_length, List.length_map]
    have hts :
        (Simulator.simLoop nm th
            ((sortRows rows).zip
              (calculate_sma ((sortRows rows).map Prod.snd) 5)) b0 0).map
          DecisionRecord.timestamp = (sortRows rows).map Prod.fst := by
      rw [simulator_simLoop_timestamps]
      have h1 : ((sortRows rows).zip
          (calculate_sma ((sortRows rows).map Prod.snd) 5)).map
            (fun x => x.1.1) =
          (((sortRows rows).zip
            (calculate_sma ((sortRows rows).map Prod.snd) 5)).map
              Prod.fst).map Prod.fst := by
        rw [List.map_map]
        rfl
      rw [h1, List.map_fst_zip _ _ (le_of_eq hlen_mas.symm)]
    have hlen_logs :
        (Simulator.simLoop nm th
            ((sortRows rows).zip
              (calculate_sma ((sortRows rows).map Prod.snd) 5)) b0 0).length =
          rows.length := by
      have h2 := congrArg List.length hts
      rw [List.length_map, List.length_map] at h2
      rw [h2, hlen_sorted]
    have hlogs_ne :
        Simulator.simLoop nm th
          ((sortRows rows).zip
            (calculate_sma ((sortRows rows).map Prod.snd) 5)) b0 0 ≠ [] := by
      intro h0
      rw [h0] at hlen_logs
      exact hrows (List.length_eq_zero.mp hlen_logs.symm)
    refine ⟨Simulator.simLoop nm th
      ((sortRows rows).zip
        (calculate_sma ((sortRows rows).map Prod.snd) 5)) b0 0, ?_,
      hlen_logs, ?_, ?_⟩
    · simp only [Simulator.run_simulation]
      rw [if_neg hth, if_neg hlogs_ne]
    · rw [hts]
      exact List.pairwise_map.mpr (sortRows_pairwise rows)
    · rw [hts]
      exact (sortRows_perm rows).map Prod.fst
  · intro logs hrun
    have hloop := strategy_run_ok_logs rows nm th b0 logs hrun
    have hts2 : logs.map DecisionRecord.timestamp =
        (sortRows rows).map Prod.fst := by
      rw [strategy_simLoop_ok_timestamps nm th _ b0 0 logs hloop,
        zip_mas_timestamps]
    refine ⟨?_, ?_, ?_⟩
    · have h2 := congrArg List.length hts2
      rw [List.length_map, List.length_map] at h2
      rw [h2, (sortRows_perm rows).length_eq]
    · rw [hts2]
      exact List.pairwise_map.mpr (sortRows_pairwise rows)
    · rw [hts2]
      exact (sortRows_perm rows).map Prod.fst

/-- Witness for C6: the empty series gives None, and a concrete two-row
series (given out of order) gives a complete, chronologically sorted log. -/
theorem c6_empty_none_nonempty_complete_witness :
    (Simulator.run_simulation [] kSimple [(kBuy, 1)] 5 = none ∧
      Strategy.run_simulation [] kSimple [(kBuy, 1)] 5 = .ok none) ∧
    (∃ logs, Simulator.run_simulation [(7, 3), (2, 4)] kSimple [(kBuy, 1)] 5 =
        some logs ∧
      logs.length = 2 ∧
      (logs.map DecisionRecord.timestamp).Sorted (fun a b : ℕ => a ≤ b) ∧
      (logs.map DecisionRecord.timestamp).Perm [7, 2]) :=
  ⟨(c6_empty_none_nonempty_complete [] kSimple [(kBuy, 1)] 5).1 rfl,
   (c6_empty_none_nonempty_complete [(7, 3), (2, 4)] kSimple [(kBuy, 1)] 5).2.1
     (by decide) (by decide)⟩

/-! Unknown strategy names. -/

theorem strategy_propose_unknown (nm : String) (cfg : List (String × ℚ))
    (p : ℚ) (ma : Option ℚ) (h : nm ≠ kSimple) :
    Strategy.proposeStrat nm cfg p ma = .ok (.hold, .notImplemented) := by
  rw [Strategy.proposeStrat, if_neg (fun hc => h hc.2), if_neg h]

theorem strategy_simStep_unknown (nm : String) (cfg : List (String × ℚ))
    (bal : ℚ) (pos : ℤ) (p : ℚ) (ma : Option ℚ) (h : nm ≠ kSimple) :
    Strategy.simStep nm cfg bal pos p ma =
      .ok ⟨.hold, .notImplemented, bal, pos⟩ := by
  simp only [Strategy.simStep, strategy_propose_unknown nm cfg p ma h]
  rfl

theorem strategy_simLoop_unknown (nm : String) (cfg : List (String × ℚ))
    (h : nm ≠ kSimple) :
    ∀ (l : List ((ℕ × ℚ) × Option ℚ)) (bal : ℚ) (pos : ℤ),
      Strategy.simLoop nm cfg l bal pos =
        .ok (l.map fun x =>
          ⟨x.1.1, .hold, 0, .notImplemented, bal, pos, bal + (pos : ℚ) * x.1.2⟩) := by
  intro l
  induction l with
  | nil => intro bal pos; rfl
  | cons x rest ih =>
    obtain ⟨⟨t, p⟩, ma⟩ := x
    intro bal pos
    simp only [Strategy.simLoop, strategy_simStep_unknown nm cfg bal pos p ma h]
    rw [ih bal pos]
    with_unfolding_all rfl

theorem simulator_simStep_unknown (nm : String) (th : List (String × ℚ))
    (bal : ℚ) (pos : ℤ) (p : ℚ) (ma : Option ℚ) (h : nm ≠ kSimple) :
    Simulator.simStep nm th bal pos p ma =
      match ma with
      | none => ⟨.hold, .insufficientData, bal, pos⟩
      | some _ => ⟨.hold, .holding, bal, pos⟩ := by
  cases ma with
  | none => rfl
  | some m =>
    simp only [Simulator.simStep, if_neg h]

theorem simulator_simLoop_unknown (nm : String) (th : List (String × ℚ))
    (h : nm ≠ kSimple) :
    ∀ (l : List ((ℕ × ℚ) × Option ℚ)) (bal : ℚ) (pos : ℤ),
      ∀ rec ∈ Simulator.simLoop nm th l bal pos,
        rec.side = .hold ∧ rec.balance = bal ∧ rec.position = pos ∧
        (rec.reason = .insufficientData ∨ rec.reason = .holding) := by
  intro l
  induction l with
  | nil =>
    intro bal pos rec hrec
    simp [Simulator.simLoop] at hrec
  | cons x rest ih =>
    obtain ⟨⟨t, p⟩, ma⟩ := x
    intro bal pos rec hrec
    simp only [Simulator.simLoop,
      simulator_simStep_unknown nm th bal pos p ma h] at hrec
    cases ma with
    | none =>
      rw [List.mem_cons] at hrec
      rcases hrec with hrec | hrec
      · subst hrec
        exact ⟨rfl, rfl, rfl, Or.inl rfl⟩
      · exact ih bal pos rec hrec
    | some m =>
      rw [List.mem_cons] at hrec
      rcases hrec with hrec | hrec
      · subst hrec
        exact ⟨rfl, rfl, rfl, Or.inr rfl⟩
      · exact ih bal pos rec hrec

/-- C7 counterexample: on a five-row constant series with the unknown
strategy name "unknown_x", `simulator.py`'s engine completes, but no record's
reason is the unimplemented-strategy message: the warm-up rows carry the
insufficient-data reason and the row with a defined moving average carries
the generic holding reason (the unknown-strategy message is overwritten
by the HOLD branch). -/
theorem c7_unimplemented_reason_counterexample :
    (Simulator.run_simulation [(0, 1), (1, 1), (2, 1), (3, 1), (4, 1)]
        "unknown_x" [(kBuy, 2/100)] 1000).map
      (List.map DecisionRecord.reason) =
      some [.insufficientData, .insufficientData, .insufficientData,
        .insufficientData, .holding] ∧
    Reason.notImplemented ∉
      [Reason.insufficientData, Reason.insufficientData,
        Reason.insufficientData, Reason.insufficientData, Reason.holding] := by
  constructor
  · with_unfolding_all rfl
  · decide

/-- C7 (amended): with an unknown strategy name, neither simulator fails and
neither ever changes the balance or position: `strategy.py`'s engine returns
a complete log in which every record is a HOLD whose reason cites the
unimplemented strategy; `simulator.py`'s engine also logs only HOLDs with
balance and position frozen, but its reasons are the insufficient-data or
generic holding messages (the unimplemented note is overwritten). -/
theorem c7_unknown_strategy_amended (rows : List (ℕ × ℚ)) (nm : String)
    (th : List (String × ℚ)) (b0 : ℚ) (hn : nm ≠ kSimple) :
    (th ≠ [] → rows ≠ [] → ∃ logs,
      Strategy.run_simulation rows nm th b0 = .ok (some logs) ∧
      logs.length = rows.length ∧
      ∀ rec ∈ logs, rec.side = .hold ∧ rec.reason = .notImplemented ∧
        rec.quantity = 0 ∧ rec.balance = b0 ∧ rec.position = 0 ∧
        rec.portfolio_value = b0) ∧
    (∀ logs, Simulator.run_simulation rows nm th b0 = some logs →
      ∀ rec ∈ logs, rec.side = .hold ∧ rec.balance = b0 ∧ rec.position = 0 ∧
        (rec.reason = .insufficientData ∨ rec.reason = .holding)) := by
  constructor
  · intro hth hrows
    have hzl : ((sortRows rows).zip
        (calculate_sma ((sortRows rows).map Prod.snd)
          (Strategy.windowOfConfig th))).length = rows.length := by
      rw [List.length_zip, calculate_sma_length, List.length_map,
        (sortRows_perm rows).length_eq, min_self]
    have hmapne : (((sortRows rows).zip
        (calculate_sma ((sortRows rows).map Prod.snd)
          (Strategy.windowOfConfig th))).map fun x =>
        (⟨x.1.1, .hold, 0, .notImplemented, b0, 0,
          b0 + ((0 : ℤ) : ℚ) * x.1.2⟩ : DecisionRecord)) ≠ [] := by
      intro h0
      have h1 := congrArg List.length h0
      rw [List.length_map, hzl] at h1
      exact hrows (List.length_eq_zero.mp h1)
    refine ⟨((sortRows rows).zip
        (calculate_sma ((sortRows rows).map Prod.snd)
          (Strategy.windowOfConfig th))).map fun x =>
        ⟨x.1.1, .hold, 0, .notImplemented, b0, 0,
          b0 + ((0 : ℤ) : ℚ) * x.1.2⟩, ?_, ?_, ?_⟩
    · simp only [Strategy.run_simulation]
      rw [if_neg hth, strategy_simLoop_unknown nm th hn _ b0 0]
      dsimp only
      rw [if_neg hmapne]
    · rw [List.length_map, hzl]
    · intro rec hrec
      rw [List.mem_map] at hrec
      obtain ⟨x, _, hfx⟩ := hrec
      subst hfx
      refine ⟨rfl, rfl, rfl, rfl, rfl, ?_⟩
      show b0 + ((0 : ℤ) : ℚ) * x.1.2 = b0
      push_cast
      ring
  · intro logs hlogs rec hrec
    have h1 := simulator_run_logs rows nm th b0 logs hlogs
    rw [h1] at hrec
    exact simulator_simLoop_unknown nm th hn _ b0 0 rec hrec

/-- Witness for C7 on a one-row series with the unknown name "unknown_x". -/
theorem c7_unknown_strategy_amended_witness :
    ∃ logs, Strategy.run_simulation [(0, 1)] "unknown_x" [(kBuy, 1)] 2 =
        .ok (some logs) ∧
      logs.length = 1 ∧
      ∀ rec ∈ logs, rec.side = .hold ∧ rec.reason = .notImplemented ∧
        rec.quantity = 0 ∧ rec.balance = 2 ∧ rec.position = 0 ∧
        rec.portfolio_value = 2 :=
  (c7_unknown_strategy_amended [(0, 1)] "unknown_x" [(kBuy, 1)] 2
    (by decide)).1 (by decide) (by decide)

/-! Configuration-loader precedence. -/

theorem lookup_dictUpdate (base extra : List (String × ℚ)) (k : String) :
    (Strategy.dictUpdate base extra).lookup k =
      (extra.lookup k).or (base.lookup k) := by
  induction base with
  | nil =>
    simp only [Strategy.dictUpdate, List.filter_nil, List.nil_append]
    rcases h : extra.lookup k with _ | w <;> rfl
  | cons a base ih =>
    obtain ⟨k', v⟩ := a
    have hupdate : Strategy.dictUpdate ((k', v) :: base) extra =
        if (extra.lookup k').isNone = true then
          (k', v) :: Strategy.dictUpdate base extra
        else Strategy.dictUpdate base extra := by
      rw [Strategy.dictUpdate, Strategy.dictUpdate, List.filter_cons]
      split_ifs with h1
      · rfl
      · rfl
    rw [hupdate]
    split_ifs with h1
    · cases hk2 : (k == k')
      · simp only [List.lookup, hk2]
        exact ih
      · simp only [List.lookup, hk2]
        have hkeq : k = k' := eq_of_beq hk2
        have hnone : extra.lookup k = none := by
          rw [hkeq]
          exact Option.isNone_iff_eq_none.mp h1
        rw [hnone]
        rfl
    · cases hk2 : (k == k')
      · rw [ih]
        simp only [List.lookup, hk2]
      · rw [ih]
        have hkeq : k = k' := eq_of_beq hk2
        rcases hcase : extra.lookup k' with _ | w
        · rw [hcase] at h1
          simp at h1
        · simp only [List.lookup, hk2]
          rw [hkeq, hcase]
          rfl

/-- C9 counterexample: the caller supplies only a buy fraction while the
parsed configuration file carries a sell fraction 0.9 for the same strategy;
the claimed precedence would resolve "sell" from the file (or, failing that,
from the hard-coded default 0.03), but both loaders return the caller's
dictionary wholesale, so "sell" resolves to nothing at all. -/
theorem c9_parameter_precedence_counterexample :
    (Strategy.load_strategy_config_for_sim
        (.parsed [(kSimple, [(kSell, 9/10)])]) kSimple
        [(kBuy, 5/100)]).lookup kSell = none ∧
    (Simulator.load_config_for_simulator
        (.parsed [(kSimple, [(kSell, 9/10)])]) kSimple
        [(kBuy, 5/100)]).lookup kSell = none := by
  constructor
  · with_unfolding_all rfl
  · with_unfolding_all rfl

/-- C9 (amended): when the caller supplies a non-empty parameter dictionary,
both loaders return it unchanged and consult neither the file nor the
defaults, even for parameters the caller omitted.  Only when the caller
supplies nothing does `strategy.py`'s loader merge the parsed file's
strategy section over the hard-coded defaults parameter by parameter, while
`simulator.py`'s loader returns the file's section as-is and uses the
defaults only when the file is missing or unreadable. -/
theorem c9_config_precedence_amended (file : FileState) (nm : String)
    (passed : List (String × ℚ)) :
    (passed ≠ [] →
      Simulator.load_config_for_simulator file nm passed = passed ∧
      Strategy.load_strategy_config_for_sim file nm passed = passed) ∧
    (∀ config key,
      (Strategy.load_strategy_config_for_sim (.parsed config) nm []).lookup
          key =
        (((config.lookup nm).getD []).lookup key).or
          (((Strategy.default_strategy_defaults.lookup nm).getD []).lookup
            key)) ∧
    (∀ config, Simulator.load_config_for_simulator (.parsed config) nm [] =
      (config.lookup nm).getD []) ∧
    (Simulator.load_config_for_simulator .missing nm [] =
      (Simulator.DEFAULT_THRESHOLDS.lookup nm).getD []) ∧
    (Strategy.load_strategy_config_for_sim .missing nm [] =
      (Strategy.default_strategy_defaults.lookup nm).getD []) := by
  refine ⟨fun hp => ⟨?_, ?_⟩, fun config key => ?_, fun config => ?_, ?_, ?_⟩
  · simp only [Simulator.load_config_for_simulator]
    rw [if_pos hp]
  · simp only [Strategy.load_strategy_config_for_sim]
    rw [if_pos hp]
  · simp only [Strategy.load_strategy_config_for_sim]
    rw [if_neg (fun h => h rfl)]
    exact lookup_dictUpdate _ _ _
  · simp only [Simulator.load_config_for_simulator]
    rw [if_neg (fun h => h rfl)]
  · simp only [Simulator.load_config_for_simulator]
    rw [if_neg (fun h => h rfl)]
  · simp only [Strategy.load_strategy_config_for_sim]
    rw [if_neg (fun h => h rfl)]

/-- Witness for C9: a caller-supplied dictionary is returned unchanged, and
with no caller parameters the file's sell fraction is resolved through the
merge. -/
theorem c9_config_precedence_amended_witness :
    (Simulator.load_config_for_simulator .missing kSimple [(kBuy, 1)] =
        [(kBuy, 1)] ∧
      Strategy.load_strategy_config_for_sim .missing kSimple [(kBuy, 1)] =
        [(kBuy, 1)]) ∧
    ((Strategy.load_strategy_config_for_sim
        (.parsed [(kSimple, [(kSell, 9/10)])]) kSimple []).lookup kSell =
      ((([(kSimple, [(kSell, 9/10)])].lookup kSimple).getD []).lookup
          kSell).or
        (((Strategy.default_strategy_defaults.lookup kSimple).getD
          []).lookup kSell)) :=
  ⟨(c9_config_precedence_amended .missing kSimple [(kBuy, 1)]).1
     (by decide),
   (c9_config_precedence_amended .missing kSimple []).2.1
     [(kSimple, [(kSell, 9/10)])] kSell⟩

end TradingBot
